import Mathlib

/-!
Shallow embedding of the `cardgame` repository (a two-player networked card
game server) and verification of its specification claims.

Sources embedded:
- `main.py`: `Card`, `generate_deck`, `Player`, `Game` (with `reset_game`,
  `deal_card`, `remove_selected_cards`), `calculate_damage`, and the
  endpoint bodies `discard`, `play_hand`.
- `player.py` / `upgrades.py`: the upgraded `Player.apply_upgrades` and the
  `Upgrade` catalog entries (in namespace `PlayerSrc`).

Python exceptions that escape the handlers are modelled by `Except PyErr`;
Python's `random.randint` draws are modelled by an explicit oracle list of
naturals (an arbitrary index stream), so every theorem quantified over the
oracle covers every possible sequence of random draws.
-/

/-- A Python exception kind that can escape the game code uncaught.
The payload (message) is not modelled; only the kind is observable here. -/
inductive PyErr where
  | keyError
  | valueError
  | indexError
  deriving DecidableEq, Repr

deriving instance DecidableEq for Except

/-- `class Card` from `main.py` / `card.py`.  The `base_damage` field is
initialised to the constant 5 and never read anywhere, so it is omitted.
Equality of selections is by the `(rank, suit)` pair, as in the source. -/
structure Card where
  rank : String
  suit : String
  deriving DecidableEq, Repr

/-- `rank_dict` from `calculate_damage`: maps a rank string to its numeric
value; a rank outside the table makes Python raise `KeyError`. -/
def rank_dict : String → Option Nat := fun r =>
  if r = "2" then some 2
  else if r = "3" then some 3
  else if r = "4" then some 4
  else if r = "5" then some 5
  else if r = "6" then some 6
  else if r = "7" then some 7
  else if r = "8" then some 8
  else if r = "9" then some 9
  else if r = "10" then some 10
  else if r = "J" then some 11
  else if r = "Q" then some 12
  else if r = "K" then some 13
  else if r = "A" then some 14
  else none

/-- The `multipliers` dict from `calculate_damage`.  It is only ever read at
the hand types produced by the classification; other strings return 0
(unreachable in the source). -/
def multipliers : String → Nat := fun t =>
  if t = "high card" then 1
  else if t = "pair" then 2
  else if t = "two pair" then 2
  else if t = "three of a kind" then 3
  else if t = "straight" then 4
  else if t = "flush" then 4
  else if t = "full house" then 4
  else if t = "four of a kind" then 7
  else if t = "straight flush" then 8
  else if t = "royal flush" then 10
  else 0

/-- The rank-extraction loop of `calculate_damage`: `rank_dict[card["rank"]]`
for each card, raising `KeyError` at the first unknown rank.  Since the
error payload is not modelled, "some rank is invalid" is the observable
condition. -/
def ranksOf (cards : List Card) : Except PyErr (List Nat) :=
  if cards.all (fun c => (rank_dict c.rank).isSome) then
    .ok (cards.map (fun c => (rank_dict c.rank).getD 0))
  else
    .error .keyError

/-- Ascending sort, modelling Python's `sorted` on a list of ints
(`List.insertionSort` is kernel-computable and produces the same list). -/
def sortAsc (l : List Nat) : List Nat := l.insertionSort (· ≤ ·)

/-- `sorted(values, reverse=True)` on a list of ints: the reverse of the
ascending sort (stability is irrelevant for integer values). -/
def sortDesc (l : List Nat) : List Nat := (sortAsc l).reverse

/-- The multiset of values of a Python counting dict built by
`d[k] = d.get(k, 0) + 1` over `l`: one count per distinct element, in
first-occurrence order (the order is irrelevant downstream, where the
values are sorted or max-reduced). -/
def countsOf {α : Type} [DecidableEq α] (l : List α) : List Nat :=
  l.dedup.map (fun x => l.count x)

/-- Python's `max` over a list of naturals: `ValueError` (here `none`) on an
empty list; `0` is an identity for `max` on `Nat`, so the fold computes the
maximum of a nonempty list. -/
def maxOf (l : List Nat) : Option Nat :=
  if l.isEmpty then none else some (l.foldl max 0)

/-- `sorted_ranks = sorted(set(ranks))` from `calculate_damage`: the sorted
list of distinct ranks. -/
def sorted_ranks_of (ranks : List Nat) : List Nat := sortAsc ranks.dedup

/-- The `is_straight` computation of `calculate_damage`, applied to the
sorted distinct ranks: guarded by length ≥ 5, checks every window of five
(`sorted_ranks[i+4] - sorted_ranks[i] == 4`), then the ace-low special case
`sorted_ranks[-5:] == [2, 3, 4, 5, 14]`. -/
def straightCheck (sr : List Nat) : Bool :=
  if 5 ≤ sr.length then
    (List.range (sr.length - 4)).any (fun i => sr.getD (i + 4) 0 - sr.getD i 0 == 4)
      || (sr.drop (sr.length - 5) == [2, 3, 4, 5, 14])
  else false

/-- The straight predicate of the scoring algorithm as a function of the
rank list (`is_straight` in the source). -/
def is_straight_of (ranks : List Nat) : Bool := straightCheck (sorted_ranks_of ranks)

/-- The flush predicate of the scoring algorithm
(`max(suit_counts.values()) == len(cards) and len(cards) >= 5`), as a
function of the maximal suit count and the number of cards. -/
def is_flush_of (maxSuitCount n : Nat) : Bool :=
  maxSuitCount == n && decide (5 ≤ n)

/-- The classification `if`/`elif` chain of `calculate_damage`.
`maxRank` is `max(ranks)`, only inspected when a straight flush is found
(where the rank list is nonempty). -/
def classify (is_straight is_flush : Bool) (rank_frequencies : List Nat)
    (maxRank : Option Nat) : String :=
  if is_straight && is_flush then
    if maxRank == some 14 then "royal flush" else "straight flush"
  else if rank_frequencies.contains 4 then "four of a kind"
  else if rank_frequencies.contains 3 && rank_frequencies.contains 2 then "full house"
  else if is_flush then "flush"
  else if is_straight then "straight"
  else if rank_frequencies.contains 3 then "three of a kind"
  else if rank_frequencies.count 2 == 2 then "two pair"
  else if rank_frequencies.contains 2 then "pair"
  else "high card"

/-- `calculate_damage(cards)` from `main.py` (identical in `game.py`):
returns `(total_damage, hand_type, multiplier)`, or the uncaught Python
exception: `KeyError` for a rank outside `rank_dict`, `ValueError` from
`max(suit_counts.values())` when `cards` is empty. -/
def calculate_damage (cards : List Card) :
    Except PyErr (Nat × String × Nat) :=
  match ranksOf cards with
  | .error e => .error e
  | .ok ranks =>
    let suits := cards.map (·.suit)
    let rank_frequencies := sortDesc (countsOf ranks)
    match maxOf (countsOf suits) with
    | none => .error .valueError
    | some maxSuitCount =>
      let is_flush := is_flush_of maxSuitCount cards.length
      let is_straight := is_straight_of ranks
      let hand_type := classify is_straight is_flush rank_frequencies (maxOf ranks)
      let multiplier := multipliers hand_type
      let base_damage := ranks.sum / 5
      .ok (base_damage * multiplier, hand_type, multiplier)

/-- The fixed multiplier table as an association list, used to state that the
classification only ever produces these ten category/multiplier pairs. -/
def multiplierTable : List (String × Nat) :=
  [("high card", 1), ("pair", 2), ("two pair", 2), ("three of a kind", 3),
   ("straight", 4), ("flush", 4), ("full house", 4), ("four of a kind", 7),
   ("straight flush", 8), ("royal flush", 10)]

/-- `generate_deck()` from `main.py` (identical in `game.py`): the 13 × 4
rank/suit grid, repeated 10 times by the Python `list * 10`. -/
def generate_deck : List Card :=
  (List.replicate 10
    ((["2", "3", "4", "5", "6", "7", "8", "9", "10", "J", "Q", "K", "A"]).flatMap
      (fun r => (["Fire", "Air", "Earth", "Water"]).map (fun s => Card.mk r s)))).flatten

/-- `class Player` from `main.py` (the upgraded variant of `player.py` is
modelled separately in namespace `PlayerSrc`). -/
structure Player where
  name : String
  max_health : Nat
  health : Nat
  wins : Nat
  hand : List Card
  remaining_discards : Nat
  deriving DecidableEq, Repr

/-- `Player.__init__` from `main.py`. -/
def Player.init (name : String) : Player := ⟨name, 100, 100, 0, [], 1⟩

/-- `Player.reset` from `main.py`: health back to max, hand cleared, one
discard again; wins kept. -/
def Player.reset (p : Player) : Player :=
  { p with health := p.max_health, hand := [], remaining_discards := 1 }

/-- `class Game` from `main.py`.  `players` is the insertion-ordered dict
name → Player (Python dicts preserve insertion order, which defines the
turn order).  The WebSocket table and the asyncio lock hold no game state;
the lock discipline is modelled separately as `LockStep` traces. -/
structure Game where
  players : List (String × Player)
  turn_index : Nat
  deck : List Card
  deriving DecidableEq, Repr

/-- `game.players[pid]`: first binding wins (keys are unique, since
`add_player` inserts a name at most once). -/
def getPlayer (g : Game) (pid : String) : Option Player :=
  (g.players.find? (fun kv => kv.1 == pid)).map (·.2)

/-- Mutation of the one shared `Player` object bound to `pid` (Python
mutates the object in place; every binding of that key sees the change). -/
def updatePlayer (g : Game) (pid : String) (f : Player → Player) : Game :=
  { g with players := g.players.map (fun kv => if kv.1 = pid then (kv.1, f kv.2) else kv) }

/-- `list(game.players.keys())`. -/
def keysOf (g : Game) : List String := g.players.map (·.1)

/-- `Game.add_player` from `main.py`: idempotent insert. -/
def add_player (g : Game) (name : String) : Game :=
  if (keysOf g).contains name then g
  else { g with players := g.players ++ [(name, Player.init name)] }

/-- `Game.reset_game` from `main.py`: new deck, every player reset (health
to max, hand cleared, one discard), `turn_index = 0`; wins kept. -/
def reset_game (g : Game) : Game :=
  { players := g.players.map (fun kv => (kv.1, kv.2.reset)),
    turn_index := 0,
    deck := generate_deck }

/-- The drawing part of `Game.deal_card`, acting on a present player's hand
and the deck: regenerate the deck if empty, then pop the card at the random
index (`random.randint(0, len(deck) - 1)`, here an arbitrary oracle value
reduced mod the deck length, which ranges over exactly the same indices)
and append it to the hand.  Returns (card, hand, deck) after the draw. -/
def deal_card_hd (hand deck : List Card) (idx : Nat) : Card × List Card × List Card :=
  let deck1 := if deck.isEmpty then generate_deck else deck
  let i := idx % deck1.length
  let card := deck1.getD i (Card.mk "" "")
  (card, hand ++ [card], deck1.eraseIdx i)

/-- `Game.deal_card(player_id)` from `main.py`; `none` stands for the
`{"error": "Player not found"}` return, in which case nothing changes. -/
def deal_card (g : Game) (pid : String) (idx : Nat) : Option Card × Game :=
  match getPlayer g pid with
  | none => (none, g)
  | some p =>
    let r := deal_card_hd p.hand g.deck idx
    (some r.1,
     { updatePlayer g pid (fun q => { q with hand := r.2.1 }) with deck := r.2.2 })

/-- The refill loop of `remove_selected_cards`
(`while len(player.hand) < 8 and self.deck: self.deal_card(player_id)`),
acting on the already-fetched player's hand and the deck (the caller has
already established that the player exists).  The loop guard requires a
nonempty deck, so `deal_card`'s regeneration branch is never taken from
here.  Each iteration appends exactly one card to a hand of length < 8, so
the loop runs at most 8 times; `fuel = 8` therefore makes the recursion
structural without cutting any execution short. -/
def refillLoop : Nat → List Card → List Card → List Nat → List Card × List Card
  | 0, hand, deck, _ => (hand, deck)
  | fuel + 1, hand, deck, oracle =>
    if hand.length < 8 ∧ deck ≠ [] then
      let r := deal_card_hd hand deck (oracle.headD 0)
      refillLoop fuel r.2.1 r.2.2 oracle.tail
    else (hand, deck)

/-- Result dict of `Game.remove_selected_cards`: either an `{"error": ...}`
dict or the `{"discarded": ..., "new_hand": ...}` dict. -/
inductive RemoveResult where
  | err (msg : String)
  | ok (discarded new_hand : List Card)
  deriving DecidableEq, Repr

/-- `Game.remove_selected_cards(player_id, selected_cards)` from `main.py`
(identical in `game.py`): keeps exactly the hand cards whose `(rank, suit)`
is not among the selected values, errors when nothing was removed, then
refills the hand up to 8 while the deck is nonempty. -/
def remove_selected_cards (g : Game) (pid : String) (sel : List Card) (oracle : List Nat) :
    RemoveResult × Game :=
  match getPlayer g pid with
  | none => (.err "Player not found", g)
  | some player =>
    if player.hand = [] then (.err "Player has no hand", g)
    else
      let selected_card_tuples := sel.map (fun c => (c.rank, c.suit))
      let new_hand := player.hand.filter (fun c => decide ((c.rank, c.suit) ∉ selected_card_tuples))
      let discarded_cards := player.hand.filter (fun c => decide ((c.rank, c.suit) ∈ selected_card_tuples))
      if new_hand.length = player.hand.length then (.err "Selected cards not found in hand", g)
      else
        let rd := refillLoop 8 new_hand g.deck oracle
        (.ok discarded_cards rd.1,
         { updatePlayer g pid (fun q => { q with hand := rd.1 }) with deck := rd.2 })

/-- Response of the `/discard` endpoint. -/
inductive DiscardResp where
  | err (msg : String)
  | ok (discarded new_hand : List Card) (remaining_discards : Nat)
  deriving DecidableEq, Repr

/-- Body of the `discard` endpoint from `main.py` (named `discard` there;
suffixed here to avoid the clash with core's `Functor.discard`), after the
session lookup
(the `"Game not found"` check concerns the process-wide registry and is
outside the per-session model).  No session lock is taken anywhere in this
endpoint, and the discard counter is decremented before
`remove_selected_cards` runs, so a failed removal still consumes the
counter. -/
def discard_endpoint (g : Game) (pid : String) (sel : List Card) (oracle : List Nat) :
    Except PyErr (DiscardResp × Game) :=
  match getPlayer g pid with
  | none => .ok (.err "Player not found", g)
  | some player =>
    match (keysOf g).get? g.turn_index with
    | none => .error .indexError   -- player_keys[game.turn_index] out of range
    | some active =>
      if pid ≠ active then .ok (.err "Not your turn", g)
      else if sel = [] then .ok (.err "No cards selected", g)
      else if player.remaining_discards < 1 then .ok (.err "No discards remaining", g)
      else
        let g1 := updatePlayer g pid
          (fun q => { q with remaining_discards := q.remaining_discards - 1 })
        let rg := remove_selected_cards g1 pid sel oracle
        match rg.1 with
        | .err m => .ok (.err m, rg.2)
        | .ok disc nh =>
          let rem := ((getPlayer rg.2 pid).map (·.remaining_discards)).getD 0
          .ok (.ok disc nh rem, rg.2)

/-- Response dict of the `play_hand` endpoint (the broadcast carries the
same data plus the hand type). -/
inductive PlayResp where
  | err (msg : String)
  | ok (damage multiplier : Nat) (new_hand : List Card) (winner : Option String)
  deriving DecidableEq, Repr

/-- Body of the `play_hand` endpoint from `main.py`, after the session
lookup.  The `async with game.lock` block wraps only the turn-index
comparison; everything afterwards runs outside the lock (see the
`LockStep` traces).  With fewer than two players the opponent selection
`[pid for pid in game.players if pid != player_id][0]` raises `IndexError`;
an invalid rank in the selection makes `calculate_damage` raise `KeyError`;
neither is caught by the endpoint. -/
def play_hand (g : Game) (pid : String) (sel : List Card) (oracle : List Nat) :
    Except PyErr (PlayResp × Game) :=
  match getPlayer g pid with
  | none => .ok (.err "Player not found", g)
  | some _player =>
    match ((keysOf g).filter (fun q => q != pid)).head? with
    | none => .error .indexError
    | some opponent_id =>
      match (keysOf g).get? g.turn_index with
      | none => .error .indexError
      | some active =>
        if pid ≠ active then .ok (.err "Not your turn", g)
        else if sel = [] then .ok (.err "No cards selected", g)
        else
          match calculate_damage sel with
          | .error e => .error e
          | .ok (damage, _hand_type, multiplier) =>
            let rg := remove_selected_cards g pid sel oracle
            match rg.1 with
            | .err m => .ok (.err m, rg.2)
            | .ok _disc new_hand =>
              let g2 := updatePlayer rg.2 opponent_id
                (fun o => { o with health := o.health - damage })
              let oppHealth : Nat := ((getPlayer g2 opponent_id).map (·.health)).getD 0
              let wg : Option String × Game :=
                if oppHealth = 0 then
                  (some pid,
                   reset_game (updatePlayer g2 pid (fun q => { q with wins := q.wins + 1 })))
                else (none, g2)
              let g4 := { wg.2 with turn_index := (wg.2.turn_index + 1) % (keysOf wg.2).length }
              .ok (.ok damage multiplier new_hand wg.1, g4)

/-- `player.remaining_discards`, as a read-only query of the state. -/
def discardsOf (g : Game) (pid : String) : Option Nat :=
  (getPlayer g pid).map (·.remaining_discards)

/-- `player.hand`, as a read-only query of the state. -/
def handOf (g : Game) (pid : String) : Option (List Card) :=
  (getPlayer g pid).map (·.hand)

/-- `player.wins`, as a read-only query of the state. -/
def winsOf (g : Game) (pid : String) : Option Nat :=
  (getPlayer g pid).map (·.wins)

/-- `player.health`, as a read-only query of the state. -/
def healthOf (g : Game) (pid : String) : Option Nat :=
  (getPlayer g pid).map (·.health)

/-- One statement of an endpoint body, abstracted to its locking behaviour:
`acquire`/`release` delimit the `async with game.lock` block, `turnCheck`
is the active-player comparison against `turn_index`, `mutate` is a write
to session state, `other` is any remaining statement. -/
inductive LockStep where
  | acquire | release | turnCheck | mutate | other
  deriving DecidableEq, Repr

/-- The `discard` endpoint (`main.py` lines 293-338) reduced to lock
behaviour: no lock is ever taken; the turn check (line 307), the counter
decrement (line 317) and the card removal/refill (line 320) all run
unlocked. -/
def discard_steps : List LockStep :=
  [.other,      -- game lookup
   .other,      -- player-membership check
   .turnCheck,  -- player_id != player_keys[game.turn_index]
   .other,      -- empty-selection check
   .other,      -- remaining_discards check
   .mutate,     -- player.remaining_discards -= 1
   .mutate,     -- game.remove_selected_cards(...): hand and deck writes
   .other]      -- broadcast / response

/-- The `play_hand` endpoint (`main.py` lines 343-408) reduced to lock
behaviour: `async with game.lock` wraps only the turn-index comparison
(lines 359-361); the card removal, damage application, win handling and
turn advance (lines 370-385) run after the lock is released. -/
def play_hand_steps : List LockStep :=
  [.other,      -- game lookup
   .other,      -- player-membership check
   .other,      -- opponent selection
   .acquire,    -- async with game.lock:
   .turnCheck,  --   turn-index comparison
   .release,    -- end of the with-block
   .other,      -- empty-selection check
   .other,      -- calculate_damage
   .mutate,     -- remove_selected_cards: hand and deck writes
   .mutate,     -- opponent.health = max(0, ...)
   .mutate,     -- wins += 1 and reset_game on a win
   .mutate,     -- turn_index advance
   .other]      -- broadcast / response

/-- The `end_turn` endpoint (`main.py` lines 414-434) reduced to lock
behaviour: the lock covers the turn check, the turn advance and the
broadcast. -/
def end_turn_steps : List LockStep :=
  [.other,      -- game lookup
   .acquire,    -- async with game.lock:
   .turnCheck,  --   turn-index comparison
   .mutate,     --   turn_index advance
   .other,      --   broadcast
   .release]    -- end of the with-block

/-- Pairs each step with whether the session lock is held when it executes
(a scan of the acquire/release nesting depth, starting unlocked). -/
def heldFlags : List LockStep → Nat → List (LockStep × Bool)
  | [], _ => []
  | .acquire :: rest, d => (.acquire, true) :: heldFlags rest (d + 1)
  | .release :: rest, d => (.release, d - 1 ≠ 0) :: heldFlags rest (d - 1)
  | s :: rest, d => (s, d ≠ 0) :: heldFlags rest d

/-- An endpoint keeps its check-and-mutate sequence inside the session's
critical section only if its turn check and every one of its mutations
execute while the lock is held (a necessary condition for the whole action
to be one critical section). -/
def checkAndMutateLocked (steps : List LockStep) : Bool :=
  (heldFlags steps 0).all
    (fun sb => !(sb.1 == LockStep.turnCheck || sb.1 == LockStep.mutate) || sb.2)

/-- A concrete 8-card hand used by the witness/counterexample states. -/
def exHand8 : List Card :=
  [⟨"A", "Fire"⟩, ⟨"2", "Air"⟩, ⟨"3", "Earth"⟩, ⟨"4", "Water"⟩,
   ⟨"5", "Fire"⟩, ⟨"6", "Air"⟩, ⟨"7", "Earth"⟩, ⟨"8", "Water"⟩]

/-- Player "a": full health, fresh discard, holding `exHand8`. -/
def exPlayerA : Player :=
  { name := "a", max_health := 100, health := 100, wins := 0,
    hand := exHand8, remaining_discards := 1 }

/-- Player "b": 2 health left, so a 2-damage hand ends the round. -/
def exPlayerB : Player :=
  { name := "b", max_health := 100, health := 2, wins := 0,
    hand := exHand8, remaining_discards := 1 }

/-- Two-player session, "a" to act, three cards left in the deck. -/
def exGameWin : Game :=
  { players := [("a", exPlayerA), ("b", exPlayerB)], turn_index := 0,
    deck := [⟨"9", "Fire"⟩, ⟨"9", "Air"⟩, ⟨"9", "Earth"⟩] }

/-- One-player session, "a" to act, one card in the deck. -/
def exGameSolo : Game :=
  { players := [("a", exPlayerA)], turn_index := 0, deck := [⟨"9", "Fire"⟩] }

/-- One-player session with an empty deck, "a" to act. -/
def exGameEmptyDeck : Game :=
  { players := [("a", exPlayerA)], turn_index := 0, deck := [] }

/-- The `winner` field of a `play_hand` response (`none` on error dicts). -/
def PlayResp.winnerOf : PlayResp → Option String
  | .err _ => none
  | .ok _ _ _ w => w

/-- Whether a `discard` response is the success dict. -/
def DiscardResp.isOk : DiscardResp → Bool
  | .err _ => false
  | .ok _ _ _ => true

/-- The kept-cards filter of `remove_selected_cards` (`new_hand` in the
source): hand cards whose `(rank, suit)` is not among the selected values. -/
def filterKept (hand sel : List Card) : List Card :=
  hand.filter (fun c => decide ((c.rank, c.suit) ∉ sel.map (fun s => (s.rank, s.suit))))

/-- The discarded-cards filter of `remove_selected_cards`
(`discarded_cards` in the source). -/
def filterMatched (hand sel : List Card) : List Card :=
  hand.filter (fun c => decide ((c.rank, c.suit) ∈ sel.map (fun s => (s.rank, s.suit))))

/-- The hand of `exGameSolo`'s player after discarding the Ace of Fire and
drawing the one deck card. -/
def exHandAfter : List Card :=
  [⟨"2", "Air"⟩, ⟨"3", "Earth"⟩, ⟨"4", "Water"⟩, ⟨"5", "Fire"⟩,
   ⟨"6", "Air"⟩, ⟨"7", "Earth"⟩, ⟨"8", "Water"⟩, ⟨"9", "Fire"⟩]

/-- The state of `exGameSolo` after that successful discard. -/
def exGameSoloAfter : Game :=
  { players := [("a", { name := "a", max_health := 100, health := 100, wins := 0,
                        hand := exHandAfter, remaining_discards := 0 })],
    turn_index := 0, deck := [] }

/-- The state of `exGameWin` after "a" plays the Ace of Fire and wins the
round: wins incremented, both players reset, regenerated deck, and the
turn advanced past the reset value. -/
def exGameWinAfter : Game :=
  { players := [("a", { name := "a", max_health := 100, health := 100, wins := 1,
                        hand := [], remaining_discards := 1 }),
                ("b", { name := "b", max_health := 100, health := 100, wins := 0,
                        hand := [], remaining_discards := 1 })],
    turn_index := 1, deck := generate_deck }

namespace PlayerSrc

/-- `class Upgrade` from `upgrades.py`: an immutable catalog entry. -/
structure Upgrade where
  id : Nat
  name : String
  tier : Nat
  rarity : String
  effect : String
  cost : Nat
  deriving DecidableEq, Repr

/-- Catalog entry 4 from `UpgradeStore._initialize_upgrades`. -/
def upgrade4 : Upgrade :=
  { id := 4, name := "Increase Health %", tier := 1, rarity := "common",
    effect := "+25% HP", cost := 4 }

/-- Catalog entry 1 from `UpgradeStore._initialize_upgrades`. -/
def upgrade1 : Upgrade :=
  { id := 1, name := "Increase Health", tier := 1, rarity := "common",
    effect := "+20 HP", cost := 4 }

/-- The decimal value of a digit run; `none` when empty or non-digit
(Python `int` raises `ValueError` there). -/
def digitsVal (ds : List Char) : Option Nat :=
  if ds = [] then none
  else if ds.all (fun c => 48 ≤ c.toNat && c.toNat ≤ 57) then
    some (ds.foldl (fun acc c => acc * 10 + (c.toNat - 48)) 0)
  else none

/-- Python `int(...)` on a decimal string with an optional sign, over the
character list (as used on `"+20"`, `"+25"`, ...). -/
def pyIntChars : List Char → Option Int := fun l =>
  match l with
  | [] => none
  | c :: ds =>
    if c = Char.ofNat 43 then (digitsVal ds).map (fun n => (n : Int))
    else if c = Char.ofNat 45 then (digitsVal ds).map (fun n => -(n : Int))
    else (digitsVal l).map (fun n => (n : Int))

/-- Python `str.split(sep)` with a one-character separator, over the
character list (`String.splitOn` is not kernel-reducible, so the split is
re-implemented structurally; it never returns `[]`). -/
def splitOnChar (c : Char) : List Char → List (List Char)
  | [] => [[]]
  | x :: xs =>
    let r := splitOnChar c xs
    if x = c then [] :: r
    else
      match r with
      | [] => [[x]]
      | y :: ys => (x :: y) :: ys

/-- Python `str.split()` (whitespace split, empty pieces dropped).  The
catalog strings only ever contain single spaces. -/
def splitWs (l : List Char) : List (List Char) :=
  (splitOnChar (Char.ofNat 32) l).filter (fun t => t ≠ [])

/-- Python's `sub in s` substring test. -/
def strContains (s sub : String) : Bool :=
  s.data.tails.any (fun t => sub.data.isPrefixOf t)

/-- `int(effect.split()[0])` as used by the flat health and discard
branches of `apply_upgrades`; `none` models the uncaught exception for a
malformed effect string. -/
def effectLeadInt (effect : String) : Option Int :=
  match splitWs effect.data with
  | [] => none
  | t :: _ => pyIntChars t

/-- `int(effect.split('%')[0])` as used by the percentage branches. -/
def effectPctInt (effect : String) : Option Int :=
  match splitOnChar (Char.ofNat 37) effect.data with
  | [] => none
  | t :: _ => pyIntChars t

/-- `upgrade.name.split()[1]`, the element of an elemental damage
upgrade. -/
def nameSecondToken (name : String) : Option String :=
  ((splitWs name.data).get? 1).map (fun l => String.mk l)

/-- `class Player` from `player.py` (the upgraded player).  Python floats
are modelled as exact rationals; for the catalog's percentage values the
float arithmetic is exact, so the models agree on them. -/
structure Player where
  name : String
  max_health : Int
  health : Int
  wins : Nat
  hand : List Card
  remaining_discards : Int
  max_discards : Int
  upgrades : List Upgrade
  gold : Int
  damage_modifier : ℚ
  water_damage_modifier : ℚ
  fire_damage_modifier : ℚ
  air_damage_modifier : ℚ
  earth_damage_modifier : ℚ
  deriving DecidableEq, Repr

/-- Python `int()` on a float value: truncation toward zero. -/
def truncRat (q : ℚ) : Int := if q < 0 then -Int.floor (-q) else Int.floor q

/-- One iteration of the `apply_upgrades` fold, dispatching on the upgrade
name exactly as the source `if`/`elif` chain does.  The state is the
player being rebuilt together with the running
`health_percentage_bonus`.  A `setattr` for an element other than
Earth/Fire/Water/Air would create a fresh, never-read attribute, hence
the final no-op arm.  `none`-returning parses surface as the uncaught
Python exceptions (`ValueError` from `int`, `IndexError` from the name
split). -/
def applyUpgrade (st : Player × ℚ) (u : Upgrade) : Except PyErr (Player × ℚ) :=
  let p := st.1
  let bonus := st.2
  if u.name = "Increase Health" then
    match effectLeadInt u.effect with
    | none => .error .valueError
    | some v => .ok ({ p with max_health := p.max_health + v }, bonus)
  else if u.name = "Increase Health %" then
    match effectPctInt u.effect with
    | none => .error .valueError
    | some v => .ok (p, bonus + (v : ℚ) / 100)
  else if u.name = "Increase Discards" then
    match effectLeadInt u.effect with
    | none => .error .valueError
    | some v => .ok ({ p with max_discards := p.max_discards + v }, bonus)
  else if u.name = "Increase Damage" then
    match effectPctInt u.effect with
    | none => .error .valueError
    | some v => .ok ({ p with damage_modifier := p.damage_modifier + (v : ℚ) / 100 }, bonus)
  else if strContains u.name "Increase" && strContains u.name "Damage" then
    match nameSecondToken u.name with
    | none => .error .indexError
    | some element =>
      match effectPctInt u.effect with
      | none => .error .valueError
      | some v =>
        if element = "Earth" then
          .ok ({ p with earth_damage_modifier := p.earth_damage_modifier + (v : ℚ) / 100 }, bonus)
        else if element = "Fire" then
          .ok ({ p with fire_damage_modifier := p.fire_damage_modifier + (v : ℚ) / 100 }, bonus)
        else if element = "Water" then
          .ok ({ p with water_damage_modifier := p.water_damage_modifier + (v : ℚ) / 100 }, bonus)
        else if element = "Air" then
          .ok ({ p with air_damage_modifier := p.air_damage_modifier + (v : ℚ) / 100 }, bonus)
        else .ok (p, bonus)
  else .ok (p, bonus)

/-- The `for upgrade in self.upgrades` loop of `apply_upgrades`: apply each
upgrade in acquisition order, short-circuiting on an uncaught exception. -/
def applyLoop : Player × ℚ → List Upgrade → Except PyErr (Player × ℚ)
  | st, [] => .ok st
  | st, u :: us =>
    match applyUpgrade st u with
    | .error e => .error e
    | .ok st2 => applyLoop st2 us

/-- `Player.apply_upgrades` from `player.py`: reset the derived stats to
their base values (`max_health = 100`, `max_discards = 1`, all five
modifiers `1.0`), fold every owned upgrade in acquisition order (the
percentage health bonus accumulates additively into
`health_percentage_bonus`, starting from `1.0`), then apply the combined
percentage once via `int(max_health * bonus)` and refresh
`health := max_health` and `remaining_discards := max_discards`.  Returns
the updated player and the `change_max_health` event payload
`(type, player, health, max_health)`. -/
def apply_upgrades (p : Player) :
    Except PyErr (Player × (String × String × Int × Int)) :=
  let base := { p with
    max_health := (100 : Int), max_discards := (1 : Int),
    damage_modifier := (1 : ℚ), water_damage_modifier := (1 : ℚ),
    fire_damage_modifier := (1 : ℚ), air_damage_modifier := (1 : ℚ),
    earth_damage_modifier := (1 : ℚ) }
  match applyLoop (base, (1 : ℚ)) p.upgrades with
  | .error e => .error e
  | .ok (q, bonus) =>
    let mh : Int := truncRat ((q.max_health : ℚ) * bonus)
    let q2 := { q with max_health := mh, health := mh,
                       remaining_discards := q.max_discards }
    .ok (q2, ("change_max_health", q2.name, q2.health, q2.max_health))

/-- Sum of the flat health bonuses of the owned upgrades
(`"Increase Health"` entries). -/
def flatHealthSum (us : List Upgrade) : Int :=
  ((us.filter (fun u => u.name == "Increase Health")).map
    (fun u => (effectLeadInt u.effect).getD 0)).sum

/-- Sum of the percentage health bonuses of the owned upgrades
(`"Increase Health %"` entries), as a rational fraction. -/
def pctHealthSum (us : List Upgrade) : ℚ :=
  ((us.filter (fun u => u.name == "Increase Health %")).map
    (fun u => (((effectPctInt u.effect).getD 0 : Int) : ℚ) / 100)).sum

/-- Well-formedness of one upgrade for `apply_upgrades`: the parses its
branch performs all succeed (true of every catalog entry). -/
def upgradeOk (u : Upgrade) : Bool :=
  if u.name == "Increase Health" || u.name == "Increase Discards" then
    (effectLeadInt u.effect).isSome
  else if u.name == "Increase Health %" || u.name == "Increase Damage" then
    (effectPctInt u.effect).isSome
  else if strContains u.name "Increase" && strContains u.name "Damage" then
    (nameSecondToken u.name).isSome && (effectPctInt u.effect).isSome
  else true

/-- A player owning exactly two `+25% HP` upgrades and nothing else. -/
def exUpPlayer : Player :=
  { name := "u", max_health := 100, health := 100, wins := 0, hand := [],
    remaining_discards := 1, max_discards := 1, upgrades := [upgrade4, upgrade4],
    gold := 0, damage_modifier := 1, water_damage_modifier := 1,
    fire_damage_modifier := 1, air_damage_modifier := 1,
    earth_damage_modifier := 1 }

end PlayerSrc

/-- The result of `apply_upgrades` on `exUpPlayer` (two `+25% HP`
upgrades). -/
def exUpPlayerAfter : PlayerSrc.Player :=
  { name := "u", max_health := 150, health := 150, wins := 0, hand := [],
    remaining_discards := 1, max_discards := 1,
    upgrades := [PlayerSrc.upgrade4, PlayerSrc.upgrade4], gold := 0,
    damage_modifier := 1, water_damage_modifier := 1, fire_damage_modifier := 1,
    air_damage_modifier := 1, earth_damage_modifier := 1 }

-- ===== THEOREMS =====

theorem classify_multiplier_mem (st fl : Bool) (freqs : List Nat) (mr : Option Nat) :
    (classify st fl freqs mr, multipliers (classify st fl freqs mr)) ∈ multiplierTable := by
  unfold classify
  repeat' split
  all_goals simp [multipliers, multiplierTable]

theorem ranksOf_ok {cards : List Card} {ranks : List Nat}
    (h : ranksOf cards = .ok ranks) :
    ranks = cards.map (fun c => (rank_dict c.rank).getD 0) := by
  unfold ranksOf at h
  split at h
  · exact (Except.ok.injEq _ _ ▸ h).symm
  · cases h


/-- C10: the spec requires every mutating operation (`discard`, `play_hand`,
`end_turn`, `buy_upgrade`) to hold the session lock across its whole
check-and-mutate sequence.  In the source only `end_turn` does:
`play_hand` releases the lock right after the turn-index check and mutates
afterwards, and `discard` never acquires the lock at all (`buy_upgrade`
does not exist in the source).  -/
theorem lockDiscipline_check_and_mutate_not_atomic :
    checkAndMutateLocked end_turn_steps = true ∧
    checkAndMutateLocked play_hand_steps = false ∧
    checkAndMutateLocked discard_steps = false ∧
    discard_steps.contains LockStep.acquire = false := by decide

/-- C8: `play_hand` on a session with fewer than two players raises an
uncaught `IndexError` (the opponent selection indexes an empty list), and
`play_hand` with a selected card whose rank is not one of the 13 valid rank
strings raises an uncaught `KeyError` from `calculate_damage` — neither
failure is returned as a structured error result, contrary to the claim. -/
theorem play_hand_uncaught_exceptions :
    play_hand exGameSolo "a" [⟨"2", "Fire"⟩] [] = .error .indexError ∧
    play_hand exGameWin "a" [⟨"Z", "Fire"⟩] [] = .error .keyError := by decide

/-- C1 counterexample: in a two-player session a successful `play_hand` by
"a" that brings "b"'s health to exactly 0 (winner field `some "a"`) leaves
`turn_index = 1`, not 0: `reset_game` sets it to 0 but the endpoint then
advances the turn by one modulo the player count. -/
theorem play_hand_win_turn_index_is_one :
    (play_hand exGameWin "a" [⟨"A", "Fire"⟩] [0]).toOption.map
        (fun r => (r.1.winnerOf, r.2.turn_index)) = some (some "a", 1) ∧ (1 : Nat) ≠ 0 := by
  decide

/-- C4 counterexample: a `discard` whose nonempty selection matches nothing
in the hand fails with the `"Selected cards not found in hand"` validation
error, yet the player's `remaining_discards` has already been decremented
from 1 to 0 (the hand and the deck are unchanged). -/
theorem discard_validation_failure_consumes_discard :
    (discard_endpoint exGameSolo "a" [⟨"K", "Fire"⟩] []).toOption.map
        (fun r => (r.1, discardsOf r.2 "a", handOf r.2 "a", r.2.deck))
      = some (.err "Selected cards not found in hand", some 0, some exHand8,
              [⟨"9", "Fire"⟩]) := by decide

/-- C5 counterexample: a successful `discard` of one card from an 8-card
hand with an empty deck leaves the hand at 7 cards: the refill loop stops
on an empty deck instead of regenerating it. -/
theorem discard_empty_deck_hand_short :
    (discard_endpoint exGameEmptyDeck "a" [⟨"A", "Fire"⟩] []).toOption.map
        (fun r => (r.1.isOk, (handOf r.2 "a").map List.length))
      = some (true, some 7) := by decide

theorem sortAsc_perm_eq {l1 l2 : List Nat} (h : l1.Perm l2) : sortAsc l1 = sortAsc l2 := by
  unfold sortAsc
  have p : (List.insertionSort (· ≤ ·) l1).Perm (List.insertionSort (· ≤ ·) l2) :=
    (List.perm_insertionSort _ l1).trans (h.trans (List.perm_insertionSort _ l2).symm)
  have s1 : List.Sorted (· ≤ ·) (List.insertionSort (· ≤ ·) l1) := List.sorted_insertionSort _ l1
  have s2 : List.Sorted (· ≤ ·) (List.insertionSort (· ≤ ·) l2) := List.sorted_insertionSort _ l2
  exact List.eq_of_perm_of_sorted p s1 s2

theorem countsOf_perm {α : Type} [DecidableEq α] {l1 l2 : List α} (h : l1.Perm l2) :
    (countsOf l1).Perm (countsOf l2) := by
  unfold countsOf
  have e : l1.dedup.map (fun x => l1.count x) = l1.dedup.map (fun x => l2.count x) :=
    List.map_congr_left (fun x _ => h.count_eq x)
  rw [e]
  exact h.dedup.map _

theorem maxOf_perm {l1 l2 : List Nat} (h : l1.Perm l2) : maxOf l1 = maxOf l2 := by
  have hlen : l1.length = l2.length := h.length_eq
  have hfold : l1.foldl max 0 = l2.foldl max 0 := h.foldl_eq 0
  have hEmpty : l1.isEmpty = l2.isEmpty := by
    cases l1 <;> cases l2 <;> simp_all
  unfold maxOf
  rw [hEmpty, hfold]

theorem ranksOf_perm_all {l1 l2 : List Card} (h : l1.Perm l2) :
    l1.all (fun c => (rank_dict c.rank).isSome) = l2.all (fun c => (rank_dict c.rank).isSome) := by
  rcases hb : l2.all (fun c => (rank_dict c.rank).isSome) with _ | _
  · rw [List.all_eq_false] at *
    obtain ⟨c, hc, hcf⟩ := hb
    exact ⟨c, h.mem_iff.mpr hc, hcf⟩
  · rw [List.all_eq_true] at *
    intro c hc
    exact hb c (h.mem_iff.mp hc)

/-- C2: the scoring engine is deterministic and order-independent: for any
two input card lists holding the same multiset of (rank, suit) cards,
`calculate_damage` returns the identical result (it is a pure function of
its input, with no randomness or call history). -/
theorem calculate_damage_perm_invariant (l1 l2 : List Card) (h : l1.Perm l2) :
    calculate_damage l1 = calculate_damage l2 := by
  unfold calculate_damage ranksOf
  rw [ranksOf_perm_all h]
  by_cases hv : l2.all (fun c => (rank_dict c.rank).isSome)
  · simp only [if_pos hv]
    have hr : (l1.map (fun c => (rank_dict c.rank).getD 0)).Perm
        (l2.map (fun c => (rank_dict c.rank).getD 0)) := h.map _
    have hs : (l1.map (·.suit)).Perm (l2.map (·.suit)) := h.map _
    have e1 : sortDesc (countsOf (l1.map (fun c => (rank_dict c.rank).getD 0)))
        = sortDesc (countsOf (l2.map (fun c => (rank_dict c.rank).getD 0))) := by
      unfold sortDesc; rw [sortAsc_perm_eq (countsOf_perm hr)]
    have e2 : maxOf (countsOf (l1.map (·.suit))) = maxOf (countsOf (l2.map (·.suit))) :=
      maxOf_perm (countsOf_perm hs)
    have e3 : l1.length = l2.length := h.length_eq
    have e4 : is_straight_of (l1.map (fun c => (rank_dict c.rank).getD 0))
        = is_straight_of (l2.map (fun c => (rank_dict c.rank).getD 0)) := by
      unfold is_straight_of sorted_ranks_of
      rw [sortAsc_perm_eq hr.dedup]
    have e5 : maxOf (l1.map (fun c => (rank_dict c.rank).getD 0))
        = maxOf (l2.map (fun c => (rank_dict c.rank).getD 0)) := maxOf_perm hr
    have e6 : (l1.map (fun c => (rank_dict c.rank).getD 0)).sum
        = (l2.map (fun c => (rank_dict c.rank).getD 0)).sum := hr.sum_eq
    rw [e1, e2, e3, e4, e5, e6]
  · simp only [if_neg hv]

/-- C6: for every input card list, a successful `calculate_damage` returns
`total_damage = floor(sum of numeric ranks of all input cards / 5) *
multiplier`, where the multiplier is the fixed table value of the
classified category (and only the ten table pairs can occur); the 5-card
input with three 10s and two 3s is classified "full house" with multiplier
4 and total damage 28. -/
theorem calculate_damage_total_formula :
    (∀ cards d cat m, calculate_damage cards = Except.ok (d, cat, m) →
        m = multipliers cat ∧ (cat, m) ∈ multiplierTable ∧
        d = (cards.map (fun c => (rank_dict c.rank).getD 0)).sum / 5 * m) ∧
    calculate_damage
        [⟨"10", "Fire"⟩, ⟨"10", "Air"⟩, ⟨"10", "Earth"⟩, ⟨"3", "Fire"⟩, ⟨"3", "Air"⟩]
      = Except.ok (28, "full house", 4) := by
  refine ⟨?_, by decide⟩
  intro cards d cat m h
  unfold calculate_damage at h
  split at h
  · exact absurd h (by simp)
  next ranks hr =>
    dsimp only at h
    split at h
    · exact absurd h (by simp)
    next maxSuitCount hmax =>
      rw [ranksOf_ok hr] at h
      simp only [Except.ok.injEq, Prod.mk.injEq] at h
      obtain ⟨hd, hcat, hm⟩ := h
      subst hd; subst hcat; subst hm
      exact ⟨rfl, classify_multiplier_mem _ _ _ _, rfl⟩

theorem sortAsc_length (l : List Nat) : (sortAsc l).length = l.length :=
  (List.perm_insertionSort _ l).length_eq

theorem straightCheck_short {sr : List Nat} (h : sr.length < 5) : straightCheck sr = false := by
  unfold straightCheck
  rw [if_neg (by omega)]

theorem is_straight_of_short {ranks : List Nat} (h : ranks.length < 5) :
    is_straight_of ranks = false := by
  apply straightCheck_short
  unfold sorted_ranks_of
  rw [sortAsc_length]
  exact lt_of_le_of_lt (List.Sublist.length_le (List.dedup_sublist _)) h

theorem is_flush_of_short {n : Nat} (h : n < 5) (msc : Nat) : is_flush_of msc n = false := by
  unfold is_flush_of
  simp [Nat.not_le.mpr h]

theorem classify_no_straight_flush (freqs : List Nat) (mr : Option Nat) :
    classify false false freqs mr ∉
      (["straight", "flush", "straight flush", "royal flush"] : List String) := by
  unfold classify
  simp only [Bool.false_and, Bool.and_false, if_false]
  repeat' split
  all_goals first | decide | simp_all

/-- C7: for every input card list with fewer than 5 cards, the straight and
flush predicates of the scoring algorithm are false regardless of ranks
and suits, and the classified category is never "straight", "flush",
"straight flush" or "royal flush". -/
theorem short_input_no_straight_flush :
    ∀ cards : List Card, cards.length < 5 →
      (∀ ranks, ranksOf cards = Except.ok ranks → is_straight_of ranks = false) ∧
      (∀ msc, is_flush_of msc cards.length = false) ∧
      (∀ d cat m, calculate_damage cards = Except.ok (d, cat, m) →
        cat ∉ (["straight", "flush", "straight flush", "royal flush"] : List String)) := by
  intro cards hlen
  refine ⟨?_, fun msc => is_flush_of_short hlen msc, ?_⟩
  · intro ranks hr
    have : ranks.length = cards.length := by rw [ranksOf_ok hr]; simp
    exact is_straight_of_short (this ▸ hlen)
  · intro d cat m h
    unfold calculate_damage at h
    split at h
    · exact absurd h (by simp)
    next ranks hr =>
      dsimp only at h
      split at h
      · exact absurd h (by simp)
      next maxSuitCount hmax =>
        have hst : is_straight_of ranks = false := by
          have : ranks.length = cards.length := by rw [ranksOf_ok hr]; simp
          exact is_straight_of_short (this ▸ hlen)
        have hfl : is_flush_of maxSuitCount cards.length = false := is_flush_of_short hlen _
        rw [hst, hfl] at h
        simp only [Except.ok.injEq, Prod.mk.injEq] at h
        obtain ⟨-, hcat, -⟩ := h
        rw [← hcat]
        exact classify_no_straight_flush _ _

/-- Witness for C2 at a concrete pair of permuted inputs. -/
theorem calculate_damage_perm_invariant_witness :
    calculate_damage [⟨"A", "Fire"⟩, ⟨"K", "Air"⟩]
      = calculate_damage [⟨"K", "Air"⟩, ⟨"A", "Fire"⟩] :=
  calculate_damage_perm_invariant _ _ (by decide)

/-- Witness for C6 at the full-house example hand. -/
theorem calculate_damage_total_formula_witness :
    4 = multipliers "full house" ∧ ("full house", 4) ∈ multiplierTable ∧
    28 = ([(⟨"10", "Fire"⟩ : Card), ⟨"10", "Air"⟩, ⟨"10", "Earth"⟩, ⟨"3", "Fire"⟩,
           ⟨"3", "Air"⟩].map (fun c => (rank_dict c.rank).getD 0)).sum / 5 * 4 :=
  calculate_damage_total_formula.1 _ 28 "full house" 4 (by decide)

/-- Witness for C7 at a 4-card single-suit run. -/
theorem short_input_no_straight_flush_witness :
    is_straight_of [2, 3, 4, 5] = false ∧ is_flush_of 4 4 = false ∧
    "high card" ∉ (["straight", "flush", "straight flush", "royal flush"] : List String) := by
  have h := short_input_no_straight_flush
      [⟨"2", "Fire"⟩, ⟨"3", "Fire"⟩, ⟨"4", "Fire"⟩, ⟨"5", "Fire"⟩] (by decide)
  exact ⟨h.1 [2, 3, 4, 5] (by decide), h.2.1 4, h.2.2 2 "high card" 1 (by decide)⟩

theorem getPlayer_updatePlayer (g : Game) (pid : String) (f : Player → Player) :
    getPlayer (updatePlayer g pid f) pid = (getPlayer g pid).map f := by
  unfold getPlayer updatePlayer
  induction g.players with
  | nil => rfl
  | cons kv rest ih =>
    by_cases h : kv.1 = pid
    · simp [List.find?, h]
    · simp only [List.map_cons, List.find?]
      rw [if_neg h]
      have hb : (kv.1 == pid) = false := by simpa using h
      simp only [hb]
      exact ih

theorem getPlayer_updatePlayer_ne (g : Game) (pid qid : String) (hne : qid ≠ pid)
    (f : Player → Player) :
    getPlayer (updatePlayer g pid f) qid = getPlayer g qid := by
  unfold getPlayer updatePlayer
  induction g.players with
  | nil => rfl
  | cons kv rest ih =>
    by_cases h : kv.1 = pid
    · have hb : (kv.1 == qid) = false := by
        simp only [h, beq_eq_false_iff_ne, ne_eq]
        exact fun e => hne e.symm
      simp only [List.map_cons, List.find?, if_pos h, hb]
      exact ih
    · simp only [List.map_cons, List.find?, if_neg h]
      cases hb : (kv.1 == qid) with
      | true => rfl
      | false => exact ih

theorem getPlayer_reset_game (g : Game) (qid : String) :
    getPlayer (reset_game g) qid = (getPlayer g qid).map Player.reset := by
  unfold getPlayer reset_game
  induction g.players with
  | nil => rfl
  | cons kv rest ih =>
    simp only [List.map_cons, List.find?]
    cases hb : (kv.1 == qid) with
    | true => rfl
    | false => exact ih

theorem keysOf_updatePlayer (g : Game) (pid : String) (f : Player → Player) :
    keysOf (updatePlayer g pid f) = keysOf g := by
  unfold keysOf updatePlayer
  simp only [List.map_map]
  apply List.map_congr_left
  intro kv _
  by_cases h : kv.1 = pid <;> simp [h]

theorem keysOf_reset_game (g : Game) : keysOf (reset_game g) = keysOf g := by
  unfold keysOf reset_game
  simp [List.map_map]


theorem deal_card_hd_nonempty {hand deck : List Card} (h : deck ≠ []) (idx : Nat) :
    (deal_card_hd hand deck idx).2.1 = hand ++ [(deal_card_hd hand deck idx).1] ∧
    (deal_card_hd hand deck idx).2.2.length = deck.length - 1 := by
  have hne : deck.isEmpty = false := by simpa [List.isEmpty_iff] using h
  have hpos : 0 < deck.length := List.length_pos.mpr h
  constructor
  · simp [deal_card_hd, hne]
  · simp only [deal_card_hd, hne, Bool.false_eq_true, if_false]
    exact List.length_eraseIdx_of_lt (Nat.mod_lt _ hpos)

theorem refillLoop_length :
    ∀ fuel (hand deck : List Card) (oracle : List Nat), hand.length ≤ 8 →
      8 - hand.length ≤ fuel →
      ((refillLoop fuel hand deck oracle).1).length = min 8 (hand.length + deck.length) := by
  intro fuel
  induction fuel with
  | zero =>
    intro hand deck oracle h8 hf
    unfold refillLoop
    dsimp only
    omega
  | succ n ih =>
    intro hand deck oracle h8 hf
    unfold refillLoop
    split
    next hcond =>
      obtain ⟨hlt, hdne⟩ := hcond
      have hdpos : 0 < deck.length := List.length_pos.mpr hdne
      obtain ⟨hh, hd⟩ := deal_card_hd_nonempty hdne (oracle.headD 0)
      rw [ih _ _ _ (by rw [hh]; simp; omega) (by rw [hh]; simp; omega)]
      rw [hh, hd]
      simp only [List.length_append, List.length_cons, List.length_nil]
      omega
    next hcond =>
      dsimp only
      have : hand.length = 8 ∨ deck = [] := by
        by_cases h1 : hand.length < 8
        · right
          by_contra h2
          exact hcond ⟨h1, h2⟩
        · left; omega
      rcases this with h1 | h1
      · omega
      · subst h1; simp only [List.length_nil]; omega

theorem refillLoop_prefix :
    ∀ fuel (hand deck : List Card) (oracle : List Nat),
      ∃ extra, (refillLoop fuel hand deck oracle).1 = hand ++ extra := by
  intro fuel
  induction fuel with
  | zero => intro hand deck oracle; exact ⟨[], by unfold refillLoop; simp⟩
  | succ n ih =>
    intro hand deck oracle
    unfold refillLoop
    split
    next hcond =>
      obtain ⟨hh, _⟩ := deal_card_hd_nonempty hcond.2 (oracle.headD 0)
      obtain ⟨extra, he⟩ := ih (deal_card_hd hand deck (oracle.headD 0)).2.1
        (deal_card_hd hand deck (oracle.headD 0)).2.2 oracle.tail
      exact ⟨[(deal_card_hd hand deck (oracle.headD 0)).1] ++ extra,
        by rw [he, hh, List.append_assoc]⟩
    next => exact ⟨[], by simp⟩


theorem remove_cases (g : Game) (pid : String) (sel : List Card) (oracle : List Nat) :
    (∃ m, remove_selected_cards g pid sel oracle = (RemoveResult.err m, g) ∧
       ((m = "Player not found" ∧ getPlayer g pid = none) ∨
        (∃ p0, getPlayer g pid = some p0 ∧ m = "Player has no hand" ∧ p0.hand = []) ∨
        (∃ p0, getPlayer g pid = some p0 ∧ p0.hand ≠ [] ∧
          m = "Selected cards not found in hand" ∧
          (filterKept p0.hand sel).length = p0.hand.length))) ∨
    (∃ p0, getPlayer g pid = some p0 ∧ p0.hand ≠ [] ∧
       (filterKept p0.hand sel).length ≠ p0.hand.length ∧
       remove_selected_cards g pid sel oracle =
         (RemoveResult.ok (filterMatched p0.hand sel)
            (refillLoop 8 (filterKept p0.hand sel) g.deck oracle).1,
          { updatePlayer g pid
              (fun q => { q with hand := (refillLoop 8 (filterKept p0.hand sel) g.deck oracle).1 })
            with deck := (refillLoop 8 (filterKept p0.hand sel) g.deck oracle).2 })) := by
  unfold remove_selected_cards
  split
  next hnone => left; exact ⟨_, rfl, Or.inl ⟨rfl, hnone⟩⟩
  next player hp =>
    split
    next hemp => left; exact ⟨_, rfl, Or.inr (Or.inl ⟨player, hp, rfl, hemp⟩)⟩
    next hne =>
      dsimp only
      split
      next hlen => left; exact ⟨_, rfl, Or.inr (Or.inr ⟨player, hp, hne, rfl, hlen⟩)⟩
      next hlen => right; exact ⟨player, hp, hne, hlen, rfl⟩

theorem getPlayer_set_deck (x : Game) (d : List Card) (qid : String) :
    getPlayer { x with deck := d } qid = getPlayer x qid := rfl

theorem keysOf_set_deck (x : Game) (d : List Card) :
    keysOf { x with deck := d } = keysOf x := rfl

theorem remove_proj {β : Type} (proj : Player → β)
    (hproj : ∀ p h, proj { p with hand := h } = proj p)
    (g : Game) (pid : String) (sel : List Card) (oracle : List Nat) (qid : String) :
    (getPlayer (remove_selected_cards g pid sel oracle).2 qid).map proj
      = (getPlayer g qid).map proj := by
  rcases remove_cases g pid sel oracle with ⟨m, he, -⟩ | ⟨p0, hp0, -, -, he⟩
  · rw [he]
  · rw [he, getPlayer_set_deck]
    by_cases hq : qid = pid
    · subst hq
      rw [getPlayer_updatePlayer]
      cases getPlayer g qid with
      | none => rfl
      | some p => simp [hproj]
    · rw [getPlayer_updatePlayer_ne _ _ _ hq]

theorem remove_keys (g : Game) (pid : String) (sel : List Card) (oracle : List Nat) :
    keysOf (remove_selected_cards g pid sel oracle).2 = keysOf g := by
  rcases remove_cases g pid sel oracle with ⟨m, he, -⟩ | ⟨p0, hp0, -, -, he⟩
  · rw [he]
  · rw [he, keysOf_set_deck, keysOf_updatePlayer]

theorem remove_turn (g : Game) (pid : String) (sel : List Card) (oracle : List Nat) :
    (remove_selected_cards g pid sel oracle).2.turn_index = g.turn_index := by
  rcases remove_cases g pid sel oracle with ⟨m, he, -⟩ | ⟨p0, hp0, -, -, he⟩
  · rw [he]
  · rw [he]; rfl

theorem remove_err_notfound_iff (g : Game) (pid : String) (sel : List Card)
    (oracle : List Nat) (p0 : Player)
    (hp0 : getPlayer g pid = some p0) (hne : p0.hand ≠ []) :
    ((remove_selected_cards g pid sel oracle).1
        = RemoveResult.err "Selected cards not found in hand")
      ↔ (filterKept p0.hand sel).length = p0.hand.length := by
  rcases remove_cases g pid sel oracle with ⟨m, he, hm⟩ | ⟨p1, hp1, hne1, hlen1, he⟩
  · rcases hm with ⟨hm1, hm2⟩ | ⟨p1, hp1, hm1, hm2⟩ | ⟨p1, hp1, hne1, hm1, hlen1⟩
    · rw [hp0] at hm2; cases hm2
    · rw [hp0] at hp1
      cases hp1
      exact absurd hm2 hne
    · rw [hp0] at hp1
      cases hp1
      rw [he]
      subst hm1
      simp [hlen1]
  · rw [hp0] at hp1
    cases hp1
    rw [he]
    simp [hlen1]

/-- C9: `remove_selected_cards` removes from the hand every card whose
(rank, suit) value appears in the selection: the removal keeps exactly the
hand filtered to non-selected values (so one selected value removes all
duplicate copies, and the removed cards can outnumber the selected ones),
it fails with the `"Selected cards not found in hand"` error exactly when
no hand card matches (extra non-matching selected cards are silently
ignored), and on success the returned discarded list is exactly the
matching cards while the new hand starts with the kept cards (followed
only by freshly drawn refill cards). -/
theorem remove_selected_cards_filter_semantics :
    ∀ g pid sel oracle p0,
      getPlayer g pid = some p0 → p0.hand ≠ [] →
      (((remove_selected_cards g pid sel oracle).1
          = RemoveResult.err "Selected cards not found in hand")
        ↔ filterMatched p0.hand sel = []) ∧
      (∀ disc nh, (remove_selected_cards g pid sel oracle).1 = RemoveResult.ok disc nh →
        disc = filterMatched p0.hand sel ∧
        nh.take (filterKept p0.hand sel).length = filterKept p0.hand sel ∧
        handOf (remove_selected_cards g pid sel oracle).2 pid = some nh) := by
  intro g pid sel oracle p0 hp0 hne
  have key : (filterKept p0.hand sel).length = p0.hand.length
      ↔ filterMatched p0.hand sel = [] := by
    unfold filterKept filterMatched
    rw [List.filter_length_eq_length, List.filter_eq_nil_iff]
    constructor
    · intro h a ha
      have := h a ha
      simp only [decide_not, Bool.not_eq_eq_eq_not, Bool.not_true, decide_eq_false_iff_not] at this
      simpa using this
    · intro h a ha
      have := h a ha
      simp only [decide_eq_true_eq] at this ⊢
      simpa using this
  refine ⟨(remove_err_notfound_iff g pid sel oracle p0 hp0 hne).trans key, ?_⟩
  intro disc nh hok
  rcases remove_cases g pid sel oracle with ⟨m, he, -⟩ | ⟨p1, hp1, hne1, hlen1, he⟩
  · rw [he] at hok; cases hok
  · rw [hp0] at hp1
    cases hp1
    rw [he] at hok
    dsimp only at hok
    injection hok with h1 h2
    subst h1
    subst h2
    obtain ⟨extra, hext⟩ := refillLoop_prefix 8 (filterKept p0.hand sel) g.deck oracle
    refine ⟨rfl, ?_, ?_⟩
    · rw [hext]
      exact List.take_left _ _
    · rw [he]
      simp [handOf, getPlayer_set_deck, getPlayer_updatePlayer, hp0]

theorem discardsOf_dec (g : Game) (pid : String) :
    discardsOf (updatePlayer g pid
        (fun q => { q with remaining_discards := q.remaining_discards - 1 })) pid
      = (discardsOf g pid).map (fun n => n - 1) := by
  unfold discardsOf
  rw [getPlayer_updatePlayer]
  cases getPlayer g pid <;> rfl

theorem handOf_dec (g : Game) (pid : String) :
    handOf (updatePlayer g pid
        (fun q => { q with remaining_discards := q.remaining_discards - 1 })) pid
      = handOf g pid := by
  unfold handOf
  rw [getPlayer_updatePlayer]
  cases getPlayer g pid <;> rfl

/-- C4 (amended): `discard` leaves all state unchanged on the
empty-selection validation error, but when the nonempty selection matches
nothing in the hand the `"Selected cards not found in hand"` error is
returned only after `remaining_discards` has already been decremented by 1
(the hand and the deck are unchanged); on success `remaining_discards`
also decreases by exactly 1. -/
theorem discard_decrement_behaviour :
    ∀ g pid sel oracle r g',
      discard_endpoint g pid sel oracle = Except.ok (r, g') →
      ((r = DiscardResp.err "No cards selected" → g' = g) ∧
       (r = DiscardResp.err "Selected cards not found in hand" →
         handOf g' pid = handOf g pid ∧ g'.deck = g.deck ∧
         discardsOf g' pid = (discardsOf g pid).map (fun n => n - 1)) ∧
       (∀ d nh rem, r = DiscardResp.ok d nh rem →
         discardsOf g' pid = (discardsOf g pid).map (fun n => n - 1))) := by
  intro g pid sel oracle r g' h
  unfold discard_endpoint at h
  split at h
  · simp only [Except.ok.injEq, Prod.mk.injEq] at h
    obtain ⟨hr, hg⟩ := h
    subst hr; subst hg
    exact ⟨fun h1 => absurd h1 (by decide), fun h1 => absurd h1 (by decide),
      fun d nh rem h1 => by cases h1⟩
  next player hp =>
    split at h
    · exact absurd h (by simp)
    next active hact =>
      split at h
      · simp only [Except.ok.injEq, Prod.mk.injEq] at h
        obtain ⟨hr, hg⟩ := h
        subst hr; subst hg
        exact ⟨fun h1 => absurd h1 (by decide), fun h1 => absurd h1 (by decide),
          fun d nh rem h1 => by cases h1⟩
      · split at h
        · simp only [Except.ok.injEq, Prod.mk.injEq] at h
          obtain ⟨hr, hg⟩ := h
          subst hr; subst hg
          exact ⟨fun _ => rfl, fun h1 => absurd h1 (by decide),
            fun d nh rem h1 => by cases h1⟩
        · split at h
          · simp only [Except.ok.injEq, Prod.mk.injEq] at h
            obtain ⟨hr, hg⟩ := h
            subst hr; subst hg
            exact ⟨fun h1 => absurd h1 (by decide), fun h1 => absurd h1 (by decide),
              fun d nh rem h1 => by cases h1⟩
          · dsimp only at h
            split at h
            next m hs =>
              simp only [Except.ok.injEq, Prod.mk.injEq] at h
              obtain ⟨hr, hg⟩ := h
              subst hr
              rcases remove_cases (updatePlayer g pid
                  (fun q => { q with remaining_discards := q.remaining_discards - 1 }))
                  pid sel oracle with ⟨m2, he, hmm⟩ | ⟨p1, hp1, hne1, hlen1, he⟩
              · rw [he] at hs hg
                dsimp only at hs
                injection hs with hs'
                subst hs'
                refine ⟨fun h1 => ?_, fun h1 => ?_, fun d nh rem h1 => by cases h1⟩
                · injection h1 with h1'
                  rcases hmm with ⟨e, -⟩ | ⟨-, -, e, -⟩ | ⟨-, -, -, e, -⟩ <;>
                    (subst e; exact absurd h1' (by decide))
                · rw [← hg]
                  exact ⟨handOf_dec g pid, rfl, discardsOf_dec g pid⟩
              · rw [he] at hs
                cases hs
            next disc nh hs =>
              simp only [Except.ok.injEq, Prod.mk.injEq] at h
              obtain ⟨hr, hg⟩ := h
              subst hr
              refine ⟨?_, ?_, ?_⟩
              · intro h1; cases h1
              · intro h1; cases h1
              intro d2 nh2 rem2 h1
              rw [← hg]
              have hpres := remove_proj (fun p => p.remaining_discards) (fun p hh => rfl)
                (updatePlayer g pid
                  (fun q => { q with remaining_discards := q.remaining_discards - 1 }))
                pid sel oracle pid
              unfold discardsOf
              rw [hpres]
              exact discardsOf_dec g pid

/-- Witness for C4 at a concrete successful discard. -/
theorem discard_decrement_behaviour_witness :
    discardsOf exGameSoloAfter "a" = (discardsOf exGameSolo "a").map (fun n => n - 1) :=
  (discard_decrement_behaviour exGameSolo "a" [⟨"A", "Fire"⟩] [0]
      (DiscardResp.ok [⟨"A", "Fire"⟩] exHandAfter 0) exGameSoloAfter (by decide)).2.2
    [⟨"A", "Fire"⟩] exHandAfter 0 rfl

/-- C5 (amended): after a successful `discard` by a player whose hand held
at most 8 cards beforehand, the hand holds `min 8 (kept + deck)` cards,
where `kept` is the hand after removal: the refill loop draws only while
the deck is nonempty and never regenerates it (the regeneration branch of
`deal_card` is unreachable under the loop's guard), so the hand returns to
exactly 8 only when the deck held at least the shortfall. -/
theorem refill_hand_length_min :
    ∀ g pid sel oracle d nh rem g' p0,
      discard_endpoint g pid sel oracle = Except.ok (DiscardResp.ok d nh rem, g') →
      getPlayer g pid = some p0 → p0.hand.length ≤ 8 →
      handOf g' pid = some nh ∧
      nh.length = min 8 ((filterKept p0.hand sel).length + g.deck.length) := by
  intro g pid sel oracle d nh rem g' p0 h hp0 h8
  unfold discard_endpoint at h
  split at h
  · exact absurd h (by simp)
  next player hp =>
    split at h
    · exact absurd h (by simp)
    next active hact =>
      split at h
      · simp only [Except.ok.injEq, Prod.mk.injEq] at h
        exact absurd h.1 (by simp)
      · split at h
        · simp only [Except.ok.injEq, Prod.mk.injEq] at h
          exact absurd h.1 (by simp)
        · split at h
          · simp only [Except.ok.injEq, Prod.mk.injEq] at h
            exact absurd h.1 (by simp)
          · dsimp only at h
            split at h
            next m hs =>
              simp only [Except.ok.injEq, Prod.mk.injEq] at h
              exact absurd h.1 (by simp)
            next disc nh2 hs =>
              simp only [Except.ok.injEq, Prod.mk.injEq] at h
              obtain ⟨hresp, hg⟩ := h
              injection hresp with e1 e2 e3
              subst e1
              subst e2
              subst hg
              rcases remove_cases (updatePlayer g pid
                  (fun q => { q with remaining_discards := q.remaining_discards - 1 }))
                  pid sel oracle with ⟨m2, he, -⟩ | ⟨p1, hp1, hne1, hlen1, he⟩
              · rw [he] at hs; cases hs
              · rw [getPlayer_updatePlayer, hp0] at hp1
                have hp1' : p1 = { p0 with remaining_discards := p0.remaining_discards - 1 } := by
                  cases hp1; rfl
                subst hp1'
                rw [he] at hs
                dsimp only at hs
                injection hs with f1 f2
                subst f1
                subst f2
                constructor
                · rw [he]
                  simp only [handOf, getPlayer_set_deck, getPlayer_updatePlayer,
                    getPlayer_updatePlayer, hp0]
                  rfl
                · have hkle : (filterKept p0.hand sel).length ≤ 8 := by
                    unfold filterKept
                    exact le_trans (List.length_filter_le _ _) h8
                  rw [refillLoop_length 8 _ _ _ hkle (by omega)]
                  rfl

/-- Witness for C5 at a concrete discard whose refill empties the deck
exactly when the hand reaches 8. -/
theorem refill_hand_length_min_witness :
    handOf exGameSoloAfter "a" = some exHandAfter ∧
    exHandAfter.length = min 8 ((filterKept exPlayerA.hand [⟨"A", "Fire"⟩]).length
      + exGameSolo.deck.length) :=
  refill_hand_length_min exGameSolo "a" [⟨"A", "Fire"⟩] [0] [⟨"A", "Fire"⟩] exHandAfter 0
    exGameSoloAfter exPlayerA (by decide) (by decide) (by decide)

/-- Witness for C9 at a concrete state: removing the Ace of Fire from the
8-card example hand. -/
theorem remove_selected_cards_filter_semantics_witness :
    [(⟨"A", "Fire"⟩ : Card)] = filterMatched exPlayerA.hand [⟨"A", "Fire"⟩] ∧
    exHandAfter.take (filterKept exPlayerA.hand [⟨"A", "Fire"⟩]).length
      = filterKept exPlayerA.hand [⟨"A", "Fire"⟩] ∧
    handOf (remove_selected_cards exGameSolo "a" [⟨"A", "Fire"⟩] []).2 "a"
      = some exHandAfter :=
  (remove_selected_cards_filter_semantics exGameSolo "a" [⟨"A", "Fire"⟩] [] exPlayerA
    (by decide) (by decide)).2 [⟨"A", "Fire"⟩] exHandAfter (by decide)

theorem getPlayer_set_turn (x : Game) (n : Nat) (qid : String) :
    getPlayer { x with turn_index := n } qid = getPlayer x qid := rfl

/-- C1 (amended): in a two-player session, when a successful `play_hand`
reduces the opponent's health to exactly 0 (the response carries a
winner), the acting player's win counter increments by exactly 1, the
deck is regenerated, both players' health returns to their respective
`max_health` — but the completed operation leaves `turn_index` at 1, not
0: `reset_game` sets it to 0 and the endpoint then advances the turn by
one modulo the player count. -/
theorem play_hand_win_round_reset :
    ∀ g pid sel oracle d m nh w g',
      (keysOf g).length = 2 →
      play_hand g pid sel oracle = Except.ok (PlayResp.ok d m nh (some w), g') →
      w = pid ∧
      g'.deck = generate_deck ∧
      g'.turn_index = 1 ∧
      winsOf g' pid = (winsOf g pid).map (fun n => n + 1) ∧
      (∀ kv ∈ g'.players, kv.2.health = kv.2.max_health) := by
  intro g pid sel oracle d m nh w g' hk h
  unfold play_hand at h
  split at h
  · exact absurd h (by simp)
  next player hp =>
    split at h
    · exact absurd h (by simp)
    next opponent_id hop =>
      have hopne : opponent_id ≠ pid := by
        have hmem := List.mem_of_mem_head? hop
        have := List.of_mem_filter hmem
        simpa using this
      split at h
      · exact absurd h (by simp)
      next active hact =>
        split at h
        · exact absurd h (by simp)
        · split at h
          · exact absurd h (by simp)
          · split at h
            · exact absurd h (by simp)
            next damage hand_type multiplier hcd =>
              dsimp only at h
              split at h
              next m2 hs => exact absurd h (by simp)
              next disc new_hand hs =>
                split at h
                next hwin =>
                  simp only [Except.ok.injEq, Prod.mk.injEq, PlayResp.ok.injEq,
                    Option.some.injEq] at h
                  obtain ⟨⟨hd, hm, hnh, hw⟩, hg⟩ := h
                  subst hw
                  refine ⟨rfl, ?_, ?_, ?_, ?_⟩
                  · rw [← hg]
                    rfl
                  · rw [← hg]
                    have hkeys : keysOf (reset_game (updatePlayer
                        (updatePlayer (remove_selected_cards g pid sel oracle).2 opponent_id
                          (fun o => { o with health := o.health - damage }))
                        pid (fun q => { q with wins := q.wins + 1 }))) = keysOf g := by
                      rw [keysOf_reset_game, keysOf_updatePlayer, keysOf_updatePlayer,
                        remove_keys]
                    dsimp only
                    rw [hkeys, hk]
                    rfl
                  · rw [← hg]
                    have hwins := remove_proj (fun p => p.wins) (fun p hh => rfl)
                      g pid sel oracle pid
                    unfold winsOf
                    rw [getPlayer_set_turn, getPlayer_reset_game, getPlayer_updatePlayer,
                      getPlayer_updatePlayer_ne _ _ _ (Ne.symm hopne)]
                    revert hwins
                    cases getPlayer (remove_selected_cards g pid sel oracle).2 pid <;>
                      cases getPlayer g pid <;> intro hwins <;> simp_all [Player.reset]
                  · rw [← hg]
                    intro kv hkv
                    simp only [reset_game, List.mem_map] at hkv
                    obtain ⟨kv0, -, rfl⟩ := hkv
                    rfl
                next hwin =>
                  simp only [Except.ok.injEq, Prod.mk.injEq, PlayResp.ok.injEq,
                    Option.some.injEq] at h
                  exact absurd h.1.2.2.2 (by simp)

set_option maxRecDepth 8192 in
/-- Witness for C1 at the concrete winning play. -/
theorem play_hand_win_round_reset_witness :
    "a" = "a" ∧ exGameWinAfter.deck = generate_deck ∧ exGameWinAfter.turn_index = 1 ∧
    winsOf exGameWinAfter "a" = (winsOf exGameWin "a").map (fun n => n + 1) ∧
    (∀ kv ∈ exGameWinAfter.players, kv.2.health = kv.2.max_health) :=
  play_hand_win_round_reset exGameWin "a" [⟨"A", "Fire"⟩] [0] 2 1 exHandAfter "a"
    exGameWinAfter (by decide) (by decide)

namespace PlayerSrc

theorem pct25 : effectPctInt "+25% HP" = some 25 := by decide

/-- C3 counterexample: a player owning exactly two `+25% HP` upgrades gets
`max_health = int(100 * (1 + 0.25 + 0.25)) = 150` from `apply_upgrades`,
not `floor(100 * 1.25 * 1.25) = 156`: the percentage factors accumulate
additively, not multiplicatively. -/
theorem apply_upgrades_percent_additive :
    (apply_upgrades exUpPlayer).toOption.map (fun r => r.1.max_health) = some 150 ∧
    ((150 : Int) ≠ 156) := by
  refine ⟨?_, by decide⟩
  simp [apply_upgrades, exUpPlayer, applyLoop, applyUpgrade, upgrade4, pct25, truncRat,
    Except.toOption]
  norm_num

theorem applyLoop_spec :
    ∀ us (p : Player) (b : ℚ), (∀ u ∈ us, upgradeOk u = true) →
      ∃ q bonus, applyLoop (p, b) us = Except.ok (q, bonus) ∧
        q.max_health = p.max_health + flatHealthSum us ∧
        bonus = b + pctHealthSum us ∧
        q.name = p.name := by
  intro us
  induction us with
  | nil =>
    intro p b hok
    exact ⟨p, b, rfl, by simp [flatHealthSum], by simp [pctHealthSum], rfl⟩
  | cons u us ih =>
    intro p b hok
    have hu : upgradeOk u = true := hok u (by simp)
    have hus : ∀ v ∈ us, upgradeOk v = true := fun v hv => hok v (by simp [hv])
    by_cases h1 : u.name = "Increase Health"
    · rcases he : effectLeadInt u.effect with _ | v
      · exfalso
        unfold upgradeOk at hu
        rw [if_pos (by simp [h1])] at hu
        simp [he] at hu
      · obtain ⟨q, bonus, hl, hmh, hb, hn⟩ :=
          ih { p with max_health := p.max_health + v } b hus
        refine ⟨q, bonus, ?_, ?_, ?_, hn⟩
        · simp only [applyLoop, applyUpgrade, if_pos h1, he]
          exact hl
        · rw [hmh]
          unfold flatHealthSum
          simp [List.filter_cons, h1, he]
          ring
        · rw [hb]
          unfold pctHealthSum
          simp [List.filter_cons, h1]
    · by_cases h2 : u.name = "Increase Health %"
      · rcases he : effectPctInt u.effect with _ | v
        · exfalso
          unfold upgradeOk at hu
          rw [if_neg (by rw [h2]; decide), if_pos (by simp [h2])] at hu
          simp [he] at hu
        · obtain ⟨q, bonus, hl, hmh, hb, hn⟩ := ih p (b + (v : ℚ) / 100) hus
          refine ⟨q, bonus, ?_, ?_, ?_, hn⟩
          · simp only [applyLoop, applyUpgrade, if_neg h1, if_pos h2, he]
            exact hl
          · rw [hmh]
            unfold flatHealthSum
            simp [List.filter_cons, h2]
          · rw [hb]
            unfold pctHealthSum
            simp [List.filter_cons, h2, he]
            ring
      · by_cases h3 : u.name = "Increase Discards"
        · rcases he : effectLeadInt u.effect with _ | v
          · exfalso
            unfold upgradeOk at hu
            rw [if_pos (by simp [h3])] at hu
            simp [he] at hu
          · obtain ⟨q, bonus, hl, hmh, hb, hn⟩ :=
              ih { p with max_discards := p.max_discards + v } b hus
            refine ⟨q, bonus, ?_, ?_, ?_, hn⟩
            · simp only [applyLoop, applyUpgrade, if_neg h1, if_neg h2, if_pos h3, he]
              exact hl
            · rw [hmh]
              unfold flatHealthSum
              simp [List.filter_cons, h3]
            · rw [hb]
              unfold pctHealthSum
              simp [List.filter_cons, h3]
        · by_cases h4 : u.name = "Increase Damage"
          · rcases he : effectPctInt u.effect with _ | v
            · exfalso
              unfold upgradeOk at hu
              rw [if_neg (by rw [h4]; decide), if_pos (by simp [h4])] at hu
              simp [he] at hu
            · obtain ⟨q, bonus, hl, hmh, hb, hn⟩ :=
                ih { p with damage_modifier := p.damage_modifier + (v : ℚ) / 100 } b hus
              refine ⟨q, bonus, ?_, ?_, ?_, hn⟩
              · simp only [applyLoop, applyUpgrade, if_neg h1, if_neg h2, if_neg h3,
                  if_pos h4, he]
                exact hl
              · rw [hmh]
                unfold flatHealthSum
                simp [List.filter_cons, h4]
              · rw [hb]
                unfold pctHealthSum
                simp [List.filter_cons, h4]
          · have hflat : flatHealthSum (u :: us) = flatHealthSum us := by
              unfold flatHealthSum
              simp [List.filter_cons, h1]
            have hpct : pctHealthSum (u :: us) = pctHealthSum us := by
              unfold pctHealthSum
              simp [List.filter_cons, h2]
            by_cases h5 : strContains u.name "Increase" && strContains u.name "Damage"
            · rcases hn2 : nameSecondToken u.name with _ | element
              · exfalso
                unfold upgradeOk at hu
                rw [if_neg (by simp [h1, h3]), if_neg (by simp [h2, h4]), if_pos h5] at hu
                simp [hn2] at hu
              · rcases he : effectPctInt u.effect with _ | v
                · exfalso
                  unfold upgradeOk at hu
                  rw [if_neg (by simp [h1, h3]), if_neg (by simp [h2, h4]), if_pos h5] at hu
                  simp [hn2, he] at hu
                · rw [hflat, hpct]
                  have hstep : ∃ p2, applyUpgrade (p, b) u = Except.ok (p2, b) ∧
                      p2.max_health = p.max_health ∧ p2.name = p.name := by
                    simp only [applyUpgrade, if_neg h1, if_neg h2, if_neg h3, if_neg h4,
                      if_pos h5, hn2, he]
                    split
                    · exact ⟨_, rfl, rfl, rfl⟩
                    · split
                      · exact ⟨_, rfl, rfl, rfl⟩
                      · split
                        · exact ⟨_, rfl, rfl, rfl⟩
                        · split
                          · exact ⟨_, rfl, rfl, rfl⟩
                          · exact ⟨_, rfl, rfl, rfl⟩
                  obtain ⟨p2, hstep, hp2mh, hp2n⟩ := hstep
                  obtain ⟨q, bonus, hl, hmh, hb, hn⟩ := ih p2 b hus
                  refine ⟨q, bonus, ?_, ?_, hb, by rw [hn, hp2n]⟩
                  · simp only [applyLoop, hstep]
                    exact hl
                  · rw [hmh, hp2mh]
            · rw [hflat, hpct]
              obtain ⟨q, bonus, hl, hmh, hb, hn⟩ := ih p b hus
              refine ⟨q, bonus, ?_, hmh, hb, hn⟩
              simp only [applyLoop, applyUpgrade, if_neg h1, if_neg h2, if_neg h3, if_neg h4,
                if_neg h5]
              exact hl

/-- C3 (amended): `apply_upgrades` recomputes `max_health` from the base
value 100, adds all flat health bonuses, and then scales once by the
combined factor `1 + Σ pct/100` in which the percentage-health bonuses
accumulate ADDITIVELY (so owning two `+25%` HP upgrades with no other
upgrades yields `max_health = int(100 * 1.5) = 150`, not
`floor(100 * 1.25 * 1.25) = 156`), and afterwards sets
`health := max_health` and `remaining_discards := max_discards`. -/
theorem apply_upgrades_health_formula :
    ∀ p : Player, (∀ u ∈ p.upgrades, upgradeOk u = true) →
      ∀ q ev, apply_upgrades p = Except.ok (q, ev) →
        q.max_health = truncRat ((((100 : Int) + flatHealthSum p.upgrades : Int) : ℚ)
            * (1 + pctHealthSum p.upgrades)) ∧
        q.health = q.max_health ∧
        q.remaining_discards = q.max_discards := by
  intro p hok q ev h
  obtain ⟨q0, bonus, hl, hmh, hb, -⟩ := applyLoop_spec p.upgrades
    { p with max_health := (100 : Int), max_discards := (1 : Int),
             damage_modifier := (1 : ℚ), water_damage_modifier := (1 : ℚ),
             fire_damage_modifier := (1 : ℚ), air_damage_modifier := (1 : ℚ),
             earth_damage_modifier := (1 : ℚ) } 1 hok
  unfold apply_upgrades at h
  dsimp only at h
  rw [hl] at h
  dsimp only at h
  simp only [Except.ok.injEq, Prod.mk.injEq] at h
  obtain ⟨hq, -⟩ := h
  subst hq
  dsimp only at hmh
  refine ⟨?_, rfl, rfl⟩
  dsimp only
  rw [hmh, hb]

/-- Witness for C3 at the two-upgrade example player. -/
theorem apply_upgrades_health_formula_witness :
    exUpPlayerAfter.max_health
        = truncRat ((((100 : Int) + flatHealthSum exUpPlayer.upgrades : Int) : ℚ)
            * (1 + pctHealthSum exUpPlayer.upgrades)) ∧
    exUpPlayerAfter.health = exUpPlayerAfter.max_health ∧
    exUpPlayerAfter.remaining_discards = exUpPlayerAfter.max_discards :=
  apply_upgrades_health_formula exUpPlayer (by decide) exUpPlayerAfter
    ("change_max_health", "u", 150, 150)
    (by simp [apply_upgrades, exUpPlayer, exUpPlayerAfter, applyLoop, applyUpgrade,
        upgrade4, pct25, truncRat]
        norm_num)

end PlayerSrc
